import Mathlib

/-!
Verification of the geometry/modeling core of a 2D/3D data-center floor-plan
editor.  The definitions below are a shallow embedding of the pure functions of
`src/modeling.js` together with the pure helpers of `src/App.jsx`
(`getNextRackStart`, `getMountedEquipmentDisplay`, and the list/reference
bookkeeping performed by `addEquipment`, `removeEquipment`).

Number representation: JavaScript numbers are embedded as `ℚ` (exact rational
arithmetic) throughout the object model, and as `ℝ` in the room-footprint /
wall / plan-projection functions, where `Math.tan`, `Math.hypot` and
`Math.atan2` force real arithmetic.  Rack slots and array indices are embedded
as `ℤ` / `ℕ`.  The JavaScript idiom `v || d` (replace a falsy value — `0`,
`NaN`, `null`, `undefined`, `""` — by the default `d`) is embedded explicitly
by the `…Or…` helpers below.  `NaN`, `undefined` and non-numeric strings,
which `clamp` coerces through `Number(value) || 0`, are embedded by the
`JSVal` type; infinities are outside the scope of this development.

Field renamings forced by Lean keywords: the JavaScript property `end`
(wall-opening bounds, tray segments) is called `endP` here, JS `from`/`to` of
a legacy connection are `src`/`dst`.
-/

/-! ### JavaScript value coercion and `clamp` (modeling.js lines 12-14) -/

/-- A JavaScript value as it may reach `clamp`: a (finite) number, `NaN`,
`undefined`, or a non-numeric string.  `Number(·)` maps the last three to
`NaN`. -/
inductive JSVal : Type
  | num (x : ℝ)
  | nan
  | undef
  | nonNumericStr

/-- Result of JavaScript `Number(value)`: a finite number or `NaN` (`none`). -/
def jsToNumber : JSVal → Option ℝ
  | JSVal.num x => some x
  | JSVal.nan => none
  | JSVal.undef => none
  | JSVal.nonNumericStr => none

/-- JavaScript `n || 0`: `NaN` and `0` are falsy and give `0`. -/
noncomputable def numOrZero : Option ℝ → ℝ
  | none => 0
  | some x => if x = 0 then 0 else x

/-- Source `clamp(value, min, max) = Math.min(Math.max(Number(value) || 0, min), max)`
(modeling.js lines 12-14). -/
noncomputable def clamp (value : JSVal) (lo hi : ℝ) : ℝ :=
  min (max (numOrZero (jsToNumber value)) lo) hi

/-! ### Generic points and segments -/

/-- A 2D point over a number type. -/
structure Point2 (α : Type) where
  x : α
  y : α
deriving DecidableEq

/-- A 3D point over a number type. -/
structure Point3 (α : Type) where
  x : α
  y : α
  z : α
deriving DecidableEq

/-- A 3D segment; the JS property `end` is called `endP`. -/
structure Seg3 (α : Type) where
  start : Point3 α
  endP : Point3 α
deriving DecidableEq

/-! ### Constants and presets (modeling.js lines 1-10) -/

/-- Source `RU_HEIGHT = 44.45` (mm per rack unit). -/
def RU_HEIGHT : ℚ := 44.45

/-- Source `RACK_BASE_CLEARANCE = 40` (mm). -/
def RACK_BASE_CLEARANCE : ℚ := 40

/-- The equipment type strings accepted by `EQUIPMENT_PRESETS`. -/
inductive EquipKind : Type
  | cabinet
  | crac
  | switch
  | ups
  | pdu
deriving DecidableEq

/-- One entry of `EQUIPMENT_PRESETS` (color fields are presentation-only and
omitted). -/
structure Preset where
  width : ℚ
  depth : ℚ
  height : ℚ
  label : String
  mountable : Bool
  rackUnits : ℤ
deriving DecidableEq

/-- Source `EQUIPMENT_PRESETS` (modeling.js lines 4-10). -/
def EQUIPMENT_PRESETS : EquipKind → Preset
  | EquipKind.cabinet => ⟨600, 1000, 2200, "Network Cabinet", false, 42⟩
  | EquipKind.crac => ⟨900, 1200, 2400, "CRAC Unit", false, 0⟩
  | EquipKind.switch => ⟨450, 450, 44.45, "Network Switch", true, 1⟩
  | EquipKind.ups => ⟨440, 700, 133.35, "UPS", true, 3⟩
  | EquipKind.pdu => ⟨440, 220, 88.9, "PDU", true, 2⟩

/-! ### The equipment / tray / connection object model (App.jsx state) -/

/-- An equipment item as stored in the `equipment` state array of `App.jsx`.
`mountTarget` is a string in JS (`""` or a decimal index); it is embedded as
`Option ℤ` with `none` for `""`.  `frontFace`/`rearFace` are `undefined`
(`none`) until `addEquipment` fills them. -/
structure Equip where
  label : String
  type : EquipKind
  x : ℚ
  y : ℚ
  width : ℚ
  depth : ℚ
  height : ℚ
  rotationDeg : ℚ
  colorKey : String
  installMode : String
  mountTarget : Option ℤ
  mountedIn : Option ℤ
  rackStart : Option ℤ
  rackUnits : ℤ
  frontFace : Option String
  rearFace : Option String
deriving DecidableEq

/-- A cable tray as stored in the `trays` state array. -/
structure Tray where
  label : String
  x : ℚ
  y : ℚ
  z : ℚ
  width : ℚ
  depth : ℚ
  lengthA : ℚ
  primaryDirection : String
  turn : String
  lengthB : ℚ
deriving DecidableEq

/-- A normalized connection (endpoint fields only; label/color/route fields are
presentation-only and omitted). -/
structure Conn where
  fromKind : String
  fromIndex : ℤ
  toKind : String
  toIndex : ℤ
deriving DecidableEq

/-- A connection as it may be stored: already normalized (it has `fromKind` and
`toKind` properties) or in the legacy shape `{from, to}` (called `src`/`dst`
here). -/
inductive ConnInput : Type
  | norm (c : Conn)
  | legacy (src dst : ℤ)
deriving DecidableEq

/-- Source `normalizeConnection` (modeling.js lines 121-132): a legacy `{from, to}`
record becomes an equipment-to-equipment connection. -/
def normalizeConnection : ConnInput → Conn
  | ConnInput.norm c => c
  | ConnInput.legacy src dst => ⟨"equipment", src, "equipment", dst⟩

/-- A parsed connection endpoint reference `{kind, index}` (App.jsx
`parseRef`). -/
structure ConnRef where
  kind : String
  index : ℤ
deriving DecidableEq

/-- JavaScript array indexing `arr[i]` with an integer index: `undefined`
(`none`) when out of range. -/
def jsIndex {α : Type} (l : List α) (i : ℤ) : Option α :=
  if i < 0 then none else l.get? i.toNat

/-! ### Tray routing (modeling.js lines 38-51, 94-106) -/

/-- Source `directionVector` (modeling.js lines 38-45); the JS `switch` maps any
string other than the three explicit cases — in particular `"x+"` — to
`{x: 1, y: 0}`. -/
def directionVector (direction : String) : Point2 ℚ :=
  if direction = "x-" then ⟨-1, 0⟩
  else if direction = "y+" then ⟨0, 1⟩
  else if direction = "y-" then ⟨0, -1⟩
  else ⟨1, 0⟩

/-- Source `turnVector` (modeling.js lines 47-51); any turn string other than
`"none"` and `"left"` takes the last branch. -/
def turnVector (primary : Point2 ℚ) (turn : String) : Point2 ℚ :=
  if turn = "none" then ⟨0, 0⟩
  else if turn = "left" then ⟨-primary.y, primary.x⟩
  else ⟨primary.y, -primary.x⟩

/-- Source `getTraySegments` (modeling.js lines 94-106). -/
def getTraySegments (tray : Tray) : List (Seg3 ℚ) :=
  let primary := directionVector tray.primaryDirection
  let firstEnd : Point3 ℚ :=
    ⟨tray.x + primary.x * tray.lengthA, tray.y + primary.y * tray.lengthA, tray.z⟩
  let first : Seg3 ℚ := ⟨⟨tray.x, tray.y, tray.z⟩, firstEnd⟩
  if tray.turn ≠ "none" ∧ 0 < tray.lengthB then
    let secondary := turnVector primary tray.turn
    [first,
     ⟨firstEnd,
      ⟨firstEnd.x + secondary.x * tray.lengthB, firstEnd.y + secondary.y * tray.lengthB,
       tray.z⟩⟩]
  else [first]

/-- Source `getTrayAnchor` (modeling.js lines 108-119). -/
def getTrayAnchor (tray : Tray) : Point3 ℚ :=
  match getTraySegments tray with
  | [] => ⟨tray.x, tray.y, tray.z⟩
  | first :: _ =>
    ⟨(first.start.x + first.endP.x) / 2, (first.start.y + first.endP.y) / 2, tray.z⟩

/-! ### Connection anchor resolution (modeling.js lines 134-156) -/

/-- JavaScript `item.rackStart || 1`: `null`/`undefined` (`none`) and `0` are
falsy and give `1`. -/
def rackStartOr1 : Option ℤ → ℤ
  | none => 1
  | some v => if v = 0 then 1 else v

/-- JavaScript `n || d` for an integer that is always present: `0` is falsy. -/
def intOr (v d : ℤ) : ℤ :=
  if v = 0 then d else v

/-- Source `getConnectionAnchor` (modeling.js lines 134-156). -/
def getConnectionAnchor (ref : Option ConnRef) (equipment : List Equip)
    (trays : List Tray) : Option (Point3 ℚ) :=
  match ref with
  | none => none
  | some r =>
    if r.kind = "equipment" then
      match jsIndex equipment r.index with
      | none => none
      | some item =>
        let mountedCabinet : Option Equip :=
          match item.mountedIn with
          | none => none
          | some m => jsIndex equipment m
        match mountedCabinet with
        | some cab =>
          if cab.type = EquipKind.cabinet then
            some ⟨cab.x, cab.y,
              ((rackStartOr1 item.rackStart : ℤ) - 1 : ℤ) * RU_HEIGHT
                + item.height / 2 + RACK_BASE_CLEARANCE⟩
          else some ⟨item.x, item.y, item.height⟩
        | none => some ⟨item.x, item.y, item.height⟩
    else if r.kind = "tray" then
      match jsIndex trays r.index with
      | none => none
      | some tray => some (getTrayAnchor tray)
    else none

/-! ### Rack allocation (App.jsx lines 123-137) -/

/-- Ordering used by `.sort((a, b) => a.start - b.start)` on occupied
intervals: ascending by interval start. -/
def startLE (a b : ℤ × ℤ) : Prop := a.1 ≤ b.1

instance : DecidableRel startLE := fun a b => Int.decLe a.1 b.1

instance : IsTotal (ℤ × ℤ) startLE := ⟨fun a b => Int.le_total a.1 b.1⟩

instance : IsTrans (ℤ × ℤ) startLE := ⟨fun _ _ _ => le_trans⟩

/-- The occupied `[start, end]` rack intervals of the items mounted in
cabinet `cabinetIndex` (App.jsx lines 124-126, before sorting). -/
def occupiedIntervals (equipment : List Equip) (cabinetIndex : ℤ) : List (ℤ × ℤ) :=
  (equipment.filter (fun item => item.mountedIn = some cabinetIndex)).map
    (fun item =>
      (rackStartOr1 item.rackStart,
       rackStartOr1 item.rackStart + intOr item.rackUnits 1 - 1))

/-- The cursor sweep of `getNextRackStart` (App.jsx lines 129-136). -/
def rackSweep (rackUnits : ℤ) : ℤ → List (ℤ × ℤ) → ℤ
  | cursor, [] => cursor
  | cursor, slot :: rest =>
    if cursor + rackUnits - 1 < slot.1 then cursor
    else rackSweep rackUnits (max cursor (slot.2 + 1)) rest

/-- Source `getNextRackStart` (App.jsx lines 123-137).  JavaScript
`Array.prototype.sort` is a stable sort by the comparator; it is embedded by
the stable `List.insertionSort` under the ascending-start order. -/
def getNextRackStart (equipment : List Equip) (cabinetIndex : ℤ)
    (rackUnits : ℤ) : ℤ :=
  rackSweep rackUnits 1
    (List.insertionSort startLE (occupiedIntervals equipment cabinetIndex))

/-! ### Mounted-equipment display and `addEquipment` (App.jsx lines 139-155,
606-649) -/

/-- Source `getMountedEquipmentDisplay` (App.jsx lines 139-155). -/
def getMountedEquipmentDisplay (item : Equip) (equipment : List Equip) : Equip :=
  match item.mountedIn with
  | none => item
  | some m =>
    match jsIndex equipment m with
    | none => item
    | some cabinet =>
      if cabinet.type ≠ EquipKind.cabinet then item
      else
        { item with
          x := cabinet.x
          y := cabinet.y
          width := max (min item.width (cabinet.width - 120)) 180
          depth := max (min item.depth (cabinet.depth - 180)) 160
          rotationDeg := cabinet.rotationDeg }

/-- JavaScript `s || "transparent"` on an optional string field. -/
def faceOr (s : Option String) : String :=
  match s with
  | none => "transparent"
  | some v => if v = "" then "transparent" else v

/-- The item construction of `addEquipment` (App.jsx lines 606-649): returns
the `nextItem` that is appended to the equipment list, or `none` on the two
rejecting `return`s (invalid mount target, insufficient rack capacity). -/
def addEquipmentItem (draft : Equip) (equipment : List Equip) : Option Equip :=
  let preset := EQUIPMENT_PRESETS draft.type
  if draft.type = EquipKind.cabinet then
    some { draft with
      frontFace := some (faceOr draft.frontFace)
      rearFace := some (faceOr draft.rearFace)
      mountedIn := none
      rackUnits := preset.rackUnits
      rackStart := none
      installMode := "floor"
      mountTarget := none }
  else if preset.mountable ∧ draft.installMode = "rack" ∧ draft.mountTarget ≠ none then
    match draft.mountTarget with
    | none => none
    | some cabinetIndex =>
      match jsIndex equipment cabinetIndex with
      | none => none
      | some cabinet =>
        if cabinet.type = EquipKind.cabinet then
          let rackUnits := intOr preset.rackUnits (max 1 (round (preset.height / RU_HEIGHT)))
          let rackStart := getNextRackStart equipment cabinetIndex rackUnits
          let rackCapacity := intOr cabinet.rackUnits (max 1 (round (cabinet.height / RU_HEIGHT)))
          if rackStart + rackUnits - 1 > rackCapacity then none
          else
            some { draft with
              mountedIn := some cabinetIndex
              rackUnits := rackUnits
              rackStart := some rackStart
              height := (rackUnits : ℚ) * RU_HEIGHT
              width := max (min (cabinet.width - 120) 482) 200
              depth := max (min (cabinet.depth - 180) preset.depth) 180
              x := cabinet.x
              y := cabinet.y
              rotationDeg := cabinet.rotationDeg }
        else none
  else
    some { draft with
      mountedIn := none
      rackUnits := intOr preset.rackUnits 0
      rackStart := none
      mountTarget := none }

/-! ### Deletion bookkeeping (App.jsx lines 679-748) -/

/-- Membership in the `removedIndexes` set built by `removeEquipment`
(App.jsx lines 680-688): the removed index itself plus, when the removed item
is a cabinet, every index mounted in it. -/
def removedIdx (index : ℕ) (equipment : List Equip) (j : ℕ) : Bool :=
  decide (j = index) ||
    (match equipment.get? index with
     | none => false
     | some item =>
       decide (item.type = EquipKind.cabinet) &&
         (match equipment.get? j with
          | none => false
          | some ej => decide (ej.mountedIn = some (index : ℤ))))

/-- Source `removedIndexes.has(m)` for an integer reference value `m`. -/
def removedIdxZ (index : ℕ) (equipment : List Equip) (m : ℤ) : Bool :=
  decide (0 ≤ m) && removedIdx index equipment m.toNat

/-- Source `[...removedIndexes].filter((r) => r < m).length`: the number of removed
indexes smaller than the reference value `m`. -/
def removedBeforeZ (index : ℕ) (equipment : List Equip) (m : ℤ) : ℕ :=
  (List.range m.toNat).countP (removedIdx index equipment)

/-- The per-item fixup applied by `removeEquipment` to each surviving
equipment item (App.jsx lines 692-703): a `mountedIn` reference to a removed
index is nulled together with `rackStart`; otherwise the reference is shifted
down by the number of removed indexes below it. -/
def fixupMount (index : ℕ) (equipment : List Equip) (item : Equip) : Equip :=
  match item.mountedIn with
  | none => item
  | some m =>
    if removedIdxZ index equipment m then
      { item with mountedIn := none, rackStart := none }
    else
      let removedBeforeMount := removedBeforeZ index equipment m
      if 0 < removedBeforeMount then
        { item with mountedIn := some (m - removedBeforeMount) }
      else item

/-- The new `equipment` list produced by `removeEquipment` (App.jsx lines
689-704): drop the removed indexes, then fix up `mountedIn` references.  The
JS `filter((_, itemIndex) => …)` index argument is embedded with
`List.enum`. -/
def removeEquipmentE (index : ℕ) (equipment : List Equip) : List Equip :=
  ((equipment.enum.filter (fun p => ! removedIdx index equipment p.1)).map
    (fun p => fixupMount index equipment p.2))

/-- The connection-survival test of `removeEquipment` (App.jsx lines
708-712). -/
def connSurvives (index : ℕ) (equipment : List Equip) (c : Conn) : Bool :=
  !(decide (c.fromKind = "equipment") && removedIdxZ index equipment c.fromIndex) &&
    !(decide (c.toKind = "equipment") && removedIdxZ index equipment c.toIndex)

/-- The endpoint renumbering of `removeEquipment` (App.jsx lines 713-723). -/
def connShift (index : ℕ) (equipment : List Equip) (c : Conn) : Conn :=
  { c with
    fromIndex :=
      if c.fromKind = "equipment" then
        c.fromIndex - removedBeforeZ index equipment c.fromIndex
      else c.fromIndex
    toIndex :=
      if c.toKind = "equipment" then
        c.toIndex - removedBeforeZ index equipment c.toIndex
      else c.toIndex }

/-- The new `connections` list produced by `removeEquipment` (App.jsx lines
705-724): normalize, drop connections touching a removed equipment index, and
shift the surviving equipment endpoints. -/
def removeEquipmentC (index : ℕ) (equipment : List Equip)
    (connections : List ConnInput) : List Conn :=
  (((connections.map normalizeConnection).filter
      (connSurvives index equipment)).map (connShift index equipment))

/-- The new `connections` list produced by `removeTray` (App.jsx lines
735-742). -/
def removeTrayC (index : ℤ) (connections : List ConnInput) : List Conn :=
  (((connections.map normalizeConnection).filter
      (fun c =>
        !(decide (c.fromKind = "tray") && decide (c.fromIndex = index)) &&
          !(decide (c.toKind = "tray") && decide (c.toIndex = index)))).map
    (fun c =>
      { c with
        fromIndex :=
          if c.fromKind = "tray" ∧ index < c.fromIndex then c.fromIndex - 1
          else c.fromIndex
        toIndex :=
          if c.toKind = "tray" ∧ index < c.toIndex then c.toIndex - 1
          else c.toIndex }))

/-! ### Room footprint and walls (modeling.js lines 16-36, 53-83) -/

/-- The `room` state record of `App.jsx`. -/
structure Room where
  width : ℝ
  length : ℝ
  height : ℝ
  southTiltDeg : ℝ
  eastTiltDeg : ℝ
  floorElevation : ℝ
  floorTileSize : ℝ

/-- Source `degToRad` (modeling.js lines 16-18). -/
noncomputable def degToRad (value : ℝ) : ℝ :=
  value * Real.pi / 180

/-- Source `Math.hypot(x, y)`. -/
noncomputable def hypot (x y : ℝ) : ℝ :=
  Real.sqrt (x ^ 2 + y ^ 2)

/-- Source `normalize` (modeling.js lines 24-27); `Math.hypot(…) || 1` replaces a
zero length by `1`.  (Named `normalizeVec` because Mathlib already has a root
`normalize`.) -/
noncomputable def normalizeVec (v : Point2 ℝ) : Point2 ℝ :=
  let length := if hypot v.x v.y = 0 then 1 else hypot v.x v.y
  ⟨v.x / length, v.y / length⟩

/-- Source `Math.atan2(y, x)` (standard piecewise definition via `arctan`;
`atan2(0, 0) = 0`). -/
noncomputable def atan2 (y x : ℝ) : ℝ :=
  if 0 < x then Real.arctan (y / x)
  else if x < 0 then
    (if 0 ≤ y then Real.arctan (y / x) + Real.pi else Real.arctan (y / x) - Real.pi)
  else if 0 < y then Real.pi / 2
  else if y < 0 then -(Real.pi / 2)
  else 0

/-- Source `getRoomFootprint` (modeling.js lines 53-62). -/
noncomputable def getRoomFootprint (room : Room) : List (Point2 ℝ) :=
  let southRise := Real.tan (degToRad room.southTiltDeg) * room.width
  let eastShift := Real.tan (degToRad room.eastTiltDeg) * room.length
  [⟨0, 0⟩,
   ⟨room.width, southRise⟩,
   ⟨room.width + eastShift, southRise + room.length⟩,
   ⟨eastShift, room.length⟩]

/-- A derived wall segment (modeling.js lines 69-76); the JS property `end` is
called `endP`. -/
structure Wall where
  index : ℕ
  start : Point2 ℝ
  endP : Point2 ℝ
  length : ℝ
  dir : Point2 ℝ
  angle : ℝ

/-- Source `getWallSegments` (modeling.js lines 64-78).  The JS callback receives the
element index, embedded with `List.mapIdx`; `points[(index + 1) %
points.length]` is always in range (the footprint has four corners), so the
`getD` default is never used. -/
noncomputable def getWallSegments (room : Room) : List Wall :=
  let points := getRoomFootprint room
  points.mapIdx (fun index start =>
    let endP := points.getD ((index + 1) % points.length) ⟨0, 0⟩
    let vector : Point2 ℝ := ⟨endP.x - start.x, endP.y - start.y⟩
    { index := index
      start := start
      endP := endP
      length := hypot vector.x vector.y
      dir := normalizeVec vector
      angle := atan2 vector.y vector.x })

/-- Source `pointAlongWall` (modeling.js lines 80-83). -/
noncomputable def pointAlongWall (wall : Wall) (distance : JSVal) : Point2 ℝ :=
  let safe := clamp distance 0 wall.length
  ⟨wall.start.x + wall.dir.x * safe, wall.start.y + wall.dir.y * safe⟩

/-! ### Opening placement (modeling.js lines 85-92) -/

/-- An opening as stored in the `openings` state array. -/
structure Opening where
  label : String
  type : String
  wall : ℕ
  offset : ℝ
  width : ℝ
  height : ℝ
  sillHeight : ℝ

/-- The bounds record returned by `getOpeningBounds`; the JS property `end` is
called `endP`. -/
structure OpeningBounds where
  start : ℝ
  endP : ℝ
  sill : ℝ
  top : ℝ

/-- Source `getOpeningBounds` (modeling.js lines 85-92). -/
noncomputable def getOpeningBounds (opening : Opening) (wall : Wall)
    (room : Room) : OpeningBounds :=
  let width := clamp (JSVal.num opening.width) 150 (max (wall.length - 100) 150)
  let start := clamp (JSVal.num opening.offset) 50 (max (wall.length - width - 50) 50)
  let endP := start + width
  let sill := clamp (JSVal.num opening.sillHeight) 0 (room.height - 100)
  let top := clamp (JSVal.num (sill + opening.height)) (sill + 100) room.height
  ⟨start, endP, sill, top⟩

/-! ### 2D plan projection (modeling.js lines 185-212) -/

/-- Source `Math.min(...xs)` over a list; the empty case (JS `Infinity`) is
unreachable here — the footprint always has four corners — and is embedded as
`0`. -/
def jsMinList : List ℝ → ℝ
  | [] => 0
  | x :: xs => xs.foldl min x

/-- Source `Math.max(...xs)` over a list; the empty case is embedded as `0`. -/
def jsMaxList : List ℝ → ℝ
  | [] => 0
  | x :: xs => xs.foldl max x

/-- The record returned by `getPlanProjection` (modeling.js line 211). -/
structure PlanProjection where
  walls : List Wall
  points : List (Point2 ℝ)
  renderWidth : ℝ
  renderHeight : ℝ
  scale : ℝ
  project : Point2 ℝ → Point2 ℝ
  unproject : Point2 ℝ → Point2 ℝ
  minX : ℝ
  minY : ℝ
  maxX : ℝ
  maxY : ℝ
  padding : ℝ

/-- Source `getPlanProjection` (modeling.js lines 185-212).  The canvas pixel size
and `window.devicePixelRatio` are inputs here; `ratio || 1` replaces a zero
ratio by `1`. -/
noncomputable def getPlanProjection (room : Room) (canvasWidth canvasHeight ratio : ℝ) :
    PlanProjection :=
  let walls := getWallSegments room
  let points := walls.map (fun wall => wall.start)
  let ratioEff := if ratio = 0 then 1 else ratio
  let renderWidth := canvasWidth / ratioEff
  let renderHeight := canvasHeight / ratioEff
  let xs := points.map (fun point => point.x)
  let ys := points.map (fun point => point.y)
  let minX := jsMinList xs
  let maxX := jsMaxList xs
  let minY := jsMinList ys
  let maxY := jsMaxList ys
  let padding : ℝ := 60
  let scale :=
    min ((renderWidth - padding * 2) / max (maxX - minX) 1)
      ((renderHeight - padding * 2) / max (maxY - minY) 1)
  { walls := walls
    points := points
    renderWidth := renderWidth
    renderHeight := renderHeight
    scale := scale
    project := fun point =>
      ⟨padding + (point.x - minX) * scale, renderHeight - padding - (point.y - minY) * scale⟩
    unproject := fun point =>
      ⟨minX + (point.x - padding) / scale, minY + (renderHeight - padding - point.y) / scale⟩
    minX := minX
    minY := minY
    maxX := maxX
    maxY := maxY
    padding := padding }

/-! ### Concrete fixtures used by the witnesses and counterexamples -/

/-- A baseline equipment record (the `defaultEquipment` draft of App.jsx,
a cabinet). -/
def baseEquip : Equip :=
  ⟨"Cabinet 1", EquipKind.cabinet, 1200, 1800, 600, 1000, 2200, 0, "red",
   "floor", none, none, none, 42, none, none⟩

/-- A switch mounted in cabinet `0` at slot `rs`, spanning `ru` rack units. -/
def mountedSwitch (rs ru : ℤ) : Equip :=
  { baseEquip with
    label := "Switch"
    type := EquipKind.switch
    width := 450
    depth := 450
    height := 44.45
    mountedIn := some 0
    rackStart := some rs
    rackUnits := ru }

/-- A cabinet with no mounted items. -/
def rackListEmpty : List Equip := [baseEquip]

/-- A cabinet whose occupied slot intervals are `[1,4]` and `[8,10]`. -/
def rackListTwo : List Equip :=
  [baseEquip, mountedSwitch 1 4, mountedSwitch 8 3]

/-- A cabinet whose occupied slot intervals are `[1,4]`, `[5,7]` and
`[8,10]`. -/
def rackListThree : List Equip :=
  [baseEquip, mountedSwitch 1 4, mountedSwitch 5 3, mountedSwitch 8 3]

/-- Equipment list for the deletion example: a cabinet, a switch mounted in
it, and a free-standing CRAC unit. -/
def cascadeEquip : List Equip :=
  [baseEquip, mountedSwitch 1 1,
   { baseEquip with label := "CRAC", type := EquipKind.crac, mountedIn := none }]

/-- One stored connection whose endpoints reference equipment index `2`. -/
def cascadeConns : List ConnInput :=
  [ConnInput.norm ⟨"equipment", 2, "equipment", 2⟩]

/-- A cabinet narrower (250mm) than the minimum mounted-item display width
floor plus the side margins. -/
def tinyCabinetList : List Equip :=
  [{ baseEquip with width := 250 }]

/-- The tray of the routing example: origin `(0, 0, 2600)`, primary direction
`"x+"` for 2500mm, then a left turn for 1800mm. -/
def exTray : Tray :=
  ⟨"Tray 1", 0, 0, 2600, 300, 100, 2500, "x+", "left", 1800⟩

/-- A 1000mm × 1000mm untilted room, 2500mm high. -/
def exRoom : Room :=
  ⟨1000, 1000, 2500, 0, 0, 300, 600⟩

/-- An opening whose raw offset, width, height and sill are all out of
range. -/
def exOpening : Opening :=
  ⟨"Door 1", "door", 0, -500, 99999, 10000, -50⟩

/-! ## Theorems -/

/-- Any direction vector is a unit step along one axis: one coordinate is
zero. -/
theorem directionVector_axis (s : String) :
    (directionVector s).x = 0 ∨ (directionVector s).y = 0 := by
  unfold directionVector
  split_ifs <;> simp

/-- C7: `getTraySegments` returns one segment from `(x, y, z)` along
`primaryDirection` for `lengthA`, plus a second segment exactly when `turn ≠
"none"` and `lengthB > 0`, continuing from the first segment's end along
`turnVector`; `turnVector` rotates the primary direction by +90° (`(x, y) ↦
(−y, x)`) for `"left"` and by −90° (`(x, y) ↦ (y, −x)`) for `"right"`; and
every returned segment is axis-aligned with both endpoints at `z = tray.z`. -/
theorem getTraySegments_spec (t : Tray) :
    (∀ p : Point2 ℚ,
      turnVector p "left" = ⟨-p.y, p.x⟩ ∧ turnVector p "right" = ⟨p.y, -p.x⟩)
    ∧ (t.turn = "none" ∨ t.lengthB ≤ 0 →
        getTraySegments t =
          [⟨⟨t.x, t.y, t.z⟩,
            ⟨t.x + (directionVector t.primaryDirection).x * t.lengthA,
             t.y + (directionVector t.primaryDirection).y * t.lengthA, t.z⟩⟩])
    ∧ (t.turn ≠ "none" → 0 < t.lengthB →
        getTraySegments t =
          [⟨⟨t.x, t.y, t.z⟩,
            ⟨t.x + (directionVector t.primaryDirection).x * t.lengthA,
             t.y + (directionVector t.primaryDirection).y * t.lengthA, t.z⟩⟩,
           ⟨⟨t.x + (directionVector t.primaryDirection).x * t.lengthA,
             t.y + (directionVector t.primaryDirection).y * t.lengthA, t.z⟩,
            ⟨t.x + (directionVector t.primaryDirection).x * t.lengthA
               + (turnVector (directionVector t.primaryDirection) t.turn).x * t.lengthB,
             t.y + (directionVector t.primaryDirection).y * t.lengthA
               + (turnVector (directionVector t.primaryDirection) t.turn).y * t.lengthB,
             t.z⟩⟩])
    ∧ (∀ seg ∈ getTraySegments t,
        (seg.start.x = seg.endP.x ∨ seg.start.y = seg.endP.y)
        ∧ seg.start.z = t.z ∧ seg.endP.z = t.z) := by
  refine ⟨?_, ?_, ?_, ?_⟩
  · intro p
    constructor <;> simp [turnVector]
  · intro h
    have hcond : ¬(t.turn ≠ "none" ∧ 0 < t.lengthB) := by
      rcases h with h | h
      · simp [h]
      · intro hc
        exact absurd hc.2 (not_lt.mpr h)
    simp [getTraySegments, hcond]
  · intro h1 h2
    simp [getTraySegments, h1, h2]
  · intro seg hseg
    have haxis := directionVector_axis t.primaryDirection
    have haxisT : (turnVector (directionVector t.primaryDirection) t.turn).x = 0
        ∨ (turnVector (directionVector t.primaryDirection) t.turn).y = 0 := by
      unfold turnVector
      split_ifs <;> simp <;> tauto
    by_cases hc : t.turn ≠ "none" ∧ 0 < t.lengthB
    · simp only [getTraySegments, if_pos hc, List.mem_cons, List.mem_singleton,
        List.not_mem_nil, or_false] at hseg
      rcases hseg with rfl | rfl
      · refine ⟨?_, rfl, rfl⟩
        rcases haxis with h | h
        · left; simp [h]
        · right; simp [h]
      · refine ⟨?_, rfl, rfl⟩
        rcases haxisT with h | h
        · left; simp [h]
        · right; simp [h]
    · simp only [getTraySegments, if_neg hc, List.mem_singleton] at hseg
      subst hseg
      refine ⟨?_, rfl, rfl⟩
      rcases haxis with h | h
      · left; simp [h]
      · right; simp [h]

/-- Witness for C7 at the example tray: primary direction `"x+"`, `lengthA =
2500`, a left turn with `lengthB = 1800` from `(0, 0, 2600)` gives segments
`(0,0,2600) → (2500,0,2600)` and `(2500,0,2600) → (2500,1800,2600)`. -/
theorem getTraySegments_spec_witness :
    getTraySegments exTray =
      [⟨⟨0, 0, 2600⟩, ⟨2500, 0, 2600⟩⟩,
       ⟨⟨2500, 0, 2600⟩, ⟨2500, 1800, 2600⟩⟩] := by
  have h := (getTraySegments_spec exTray).2.2.1 (by decide) (by norm_num [exTray])
  rw [h]
  simp [exTray, directionVector, turnVector]

/-- C2: `getConnectionAnchor` resolves a rack-mounted equipment reference to
`(cabinet.x, cabinet.y, (rackStart − 1) · 44.45 + height/2 + 40)`, a
non-mounted equipment reference to `(item.x, item.y, item.height)`, and a
tray reference to the midpoint of the tray's first segment at `z = tray.z`. -/
theorem getConnectionAnchor_spec (E : List Equip) (T : List Tray) (i : ℤ) :
    (∀ item m cab rs, jsIndex E i = some item → item.mountedIn = some m →
        jsIndex E m = some cab → cab.type = EquipKind.cabinet →
        item.rackStart = some rs → 1 ≤ rs →
        getConnectionAnchor (some ⟨"equipment", i⟩) E T =
          some ⟨cab.x, cab.y,
            ((rs : ℚ) - 1) * RU_HEIGHT + item.height / 2 + RACK_BASE_CLEARANCE⟩)
    ∧ (∀ item, jsIndex E i = some item → item.mountedIn = none →
        getConnectionAnchor (some ⟨"equipment", i⟩) E T =
          some ⟨item.x, item.y, item.height⟩)
    ∧ (∀ t, jsIndex T i = some t →
        ∃ s rest, getTraySegments t = s :: rest ∧
          getConnectionAnchor (some ⟨"tray", i⟩) E T =
            some ⟨(s.start.x + s.endP.x) / 2, (s.start.y + s.endP.y) / 2, t.z⟩) := by
  refine ⟨?_, ?_, ?_⟩
  · intro item m cab rs hitem hm hcab htype hrs hrs1
    have hne : rs ≠ 0 := by omega
    simp only [getConnectionAnchor, hitem, hm, hcab, htype, hrs]
    simp only [rackStartOr1, if_neg hne, Option.some.injEq, Point3.mk.injEq]
    push_cast
    ring_nf
  · intro item hitem hm
    simp [getConnectionAnchor, hitem, hm]
  · intro t ht
    have hseg : ∃ s rest, getTraySegments t = s :: rest := by
      unfold getTraySegments
      by_cases hc : t.turn ≠ "none" ∧ 0 < t.lengthB <;> simp [hc]
    obtain ⟨s, rest, hsr⟩ := hseg
    refine ⟨s, rest, hsr, ?_⟩
    simp [getConnectionAnchor, ht, getTrayAnchor, hsr]

/-- Witness for C2: a switch mounted in cabinet `0` at slot 5 (height 44.45),
cabinet at `(1200, 1800)`, resolves to `(1200, 1800, 240.025)`. -/
theorem getConnectionAnchor_spec_witness :
    getConnectionAnchor (some ⟨"equipment", 1⟩) [baseEquip, mountedSwitch 5 1] [] =
      some ⟨1200, 1800, 240.025⟩ := by
  have h := ((getConnectionAnchor_spec [baseEquip, mountedSwitch 5 1] [] 1).1
    (mountedSwitch 5 1) 0 baseEquip 5 rfl rfl rfl rfl rfl (by norm_num))
  rw [h]
  norm_num [baseEquip, mountedSwitch, RU_HEIGHT, RACK_BASE_CLEARANCE]

/-- C8: `getConnectionAnchor` is total, and returns `none` exactly for a null
reference, a reference of unknown kind, or a reference whose index is out of
range of the corresponding list. -/
theorem getConnectionAnchor_eq_none_iff (ref : Option ConnRef) (E : List Equip)
    (T : List Tray) :
    getConnectionAnchor ref E T = none ↔
      ref = none ∨ ∃ r, ref = some r ∧
        ((r.kind ≠ "equipment" ∧ r.kind ≠ "tray")
         ∨ (r.kind = "equipment" ∧ jsIndex E r.index = none)
         ∨ (r.kind = "tray" ∧ jsIndex T r.index = none)) := by
  cases ref with
  | none => simp [getConnectionAnchor]
  | some r =>
    by_cases he : r.kind = "equipment"
    · rcases hE : jsIndex E r.index with _ | item
      · simp [getConnectionAnchor, he, hE]
      · rcases hmi : item.mountedIn with _ | m
        · simp [getConnectionAnchor, he, hE, hmi]
        · rcases hcab : jsIndex E m with _ | cab
          · simp [getConnectionAnchor, he, hE, hmi, hcab]
          · by_cases htc : cab.type = EquipKind.cabinet
            · simp [getConnectionAnchor, he, hE, hmi, hcab, htc]
            · simp [getConnectionAnchor, he, hE, hmi, hcab, htc]
    · by_cases ht : r.kind = "tray"
      · rcases hT : jsIndex T r.index with _ | t
        · simp [getConnectionAnchor, he, ht, hT]
        · simp [getConnectionAnchor, he, ht, hT]
      · simp [getConnectionAnchor, he, ht]

/-- Witness for C8: a dangling equipment reference (index 5 in a three-item
list) resolves to `none`. -/
theorem getConnectionAnchor_eq_none_iff_witness :
    getConnectionAnchor (some ⟨"equipment", 5⟩) cascadeEquip [] = none :=
  (getConnectionAnchor_eq_none_iff (some ⟨"equipment", 5⟩) cascadeEquip []).mpr
    (Or.inr ⟨⟨"equipment", 5⟩, rfl, Or.inr (Or.inl ⟨rfl, rfl⟩)⟩)

/-- On a plain number, `clamp` is `min (max x lo) hi`. -/
theorem clamp_num (x lo hi : ℝ) : clamp (JSVal.num x) lo hi = min (max x lo) hi := by
  by_cases hx : x = 0 <;> simp [clamp, jsToNumber, numOrZero, hx]

/-- Source `clamp` always lands in `[lo, hi]` when `lo ≤ hi`. -/
theorem clamp_mem (v : JSVal) (lo hi : ℝ) (h : lo ≤ hi) :
    lo ≤ clamp v lo hi ∧ clamp v lo hi ≤ hi := by
  unfold clamp
  exact ⟨le_min (le_max_right _ _) h, min_le_right _ _⟩

/-- C10: `clamp` is total and coerces non-numeric input to zero: a value that
is not a finite number (`NaN`, `undefined`, a non-numeric string) is clamped
exactly like `0`; a numeric value is clamped to `lo` below `lo`, to `hi`
above `hi`, and is returned unchanged in between; consequently
`pointAlongWall` treats a `NaN` distance as distance `0`. -/
theorem clamp_total_spec (lo hi : ℝ) (h : lo ≤ hi) :
    (∀ v : JSVal, (∀ x : ℝ, v ≠ JSVal.num x) →
      clamp v lo hi = clamp (JSVal.num 0) lo hi)
    ∧ (∀ x : ℝ, clamp (JSVal.num x) lo hi =
        if x < lo then lo else if hi < x then hi else x)
    ∧ (∀ wall : Wall, pointAlongWall wall JSVal.nan = pointAlongWall wall (JSVal.num 0)) := by
  refine ⟨?_, ?_, ?_⟩
  · intro v hv
    cases v with
    | num x => exact absurd rfl (hv x)
    | nan => simp [clamp, jsToNumber, numOrZero]
    | undef => simp [clamp, jsToNumber, numOrZero]
    | nonNumericStr => simp [clamp, jsToNumber, numOrZero]
  · intro x
    rw [clamp_num]
    rcases lt_or_le x lo with h1 | h1
    · rw [if_pos h1, max_eq_right h1.le, min_eq_left h]
    · rw [if_neg (not_lt.mpr h1), max_eq_left h1]
      rcases lt_or_le hi x with h2 | h2
      · rw [if_pos h2, min_eq_right h2.le]
      · rw [if_neg (not_lt.mpr h2), min_eq_left h2]
  · intro wall
    have : clamp JSVal.nan 0 wall.length = clamp (JSVal.num 0) 0 wall.length := by
      simp [clamp, jsToNumber, numOrZero]
    simp [pointAlongWall, this]

/-- Witness for C10 at `lo = 10`, `hi = 20`: `NaN` is clamped like `0` (to
`10`), and numeric values clamp as stated. -/
theorem clamp_total_spec_witness :
    (10 : ℝ) ≤ 20
    ∧ clamp JSVal.nan 10 20 = clamp (JSVal.num 0) 10 20
    ∧ clamp (JSVal.num 35) 10 20 = if (35 : ℝ) < 10 then 10 else if (20 : ℝ) < 35 then 20 else 35 := by
  have h := clamp_total_spec 10 20 (by norm_num)
  exact ⟨by norm_num, h.1 JSVal.nan (by intro x hx; cases hx), h.2.1 35⟩


/-- Explicit form of the four wall segments derived from a room's footprint
corners `p0 = (0,0)`, `p1 = (width, southRise)`, `p2 = (width + eastShift,
southRise + length)`, `p3 = (eastShift, length)`. -/
theorem getWallSegments_explicit (room : Room) :
    getWallSegments room =
      [⟨0, ⟨0, 0⟩,
        ⟨room.width, Real.tan (degToRad room.southTiltDeg) * room.width⟩,
        hypot (room.width - 0) (Real.tan (degToRad room.southTiltDeg) * room.width - 0),
        normalizeVec ⟨room.width - 0, Real.tan (degToRad room.southTiltDeg) * room.width - 0⟩,
        atan2 (Real.tan (degToRad room.southTiltDeg) * room.width - 0) (room.width - 0)⟩,
       ⟨1, ⟨room.width, Real.tan (degToRad room.southTiltDeg) * room.width⟩,
        ⟨room.width + Real.tan (degToRad room.eastTiltDeg) * room.length,
         Real.tan (degToRad room.southTiltDeg) * room.width + room.length⟩,
        hypot (room.width + Real.tan (degToRad room.eastTiltDeg) * room.length - room.width)
          (Real.tan (degToRad room.southTiltDeg) * room.width + room.length
            - Real.tan (degToRad room.southTiltDeg) * room.width),
        normalizeVec
          ⟨room.width + Real.tan (degToRad room.eastTiltDeg) * room.length - room.width,
           Real.tan (degToRad room.southTiltDeg) * room.width + room.length
             - Real.tan (degToRad room.southTiltDeg) * room.width⟩,
        atan2
          (Real.tan (degToRad room.southTiltDeg) * room.width + room.length
            - Real.tan (degToRad room.southTiltDeg) * room.width)
          (room.width + Real.tan (degToRad room.eastTiltDeg) * room.length - room.width)⟩,
       ⟨2, ⟨room.width + Real.tan (degToRad room.eastTiltDeg) * room.length,
            Real.tan (degToRad room.southTiltDeg) * room.width + room.length⟩,
        ⟨Real.tan (degToRad room.eastTiltDeg) * room.length, room.length⟩,
        hypot
          (Real.tan (degToRad room.eastTiltDeg) * room.length
            - (room.width + Real.tan (degToRad room.eastTiltDeg) * room.length))
          (room.length - (Real.tan (degToRad room.southTiltDeg) * room.width + room.length)),
        normalizeVec
          ⟨Real.tan (degToRad room.eastTiltDeg) * room.length
             - (room.width + Real.tan (degToRad room.eastTiltDeg) * room.length),
           room.length - (Real.tan (degToRad room.southTiltDeg) * room.width + room.length)⟩,
        atan2
          (room.length - (Real.tan (degToRad room.southTiltDeg) * room.width + room.length))
          (Real.tan (degToRad room.eastTiltDeg) * room.length
            - (room.width + Real.tan (degToRad room.eastTiltDeg) * room.length))⟩,
       ⟨3, ⟨Real.tan (degToRad room.eastTiltDeg) * room.length, room.length⟩,
        ⟨0, 0⟩,
        hypot (0 - Real.tan (degToRad room.eastTiltDeg) * room.length) (0 - room.length),
        normalizeVec
          ⟨0 - Real.tan (degToRad room.eastTiltDeg) * room.length, 0 - room.length⟩,
        atan2 (0 - room.length) (0 - Real.tan (degToRad room.eastTiltDeg) * room.length)⟩] := by
  unfold getWallSegments getRoomFootprint
  simp [List.mapIdx_cons, List.getD]

/-- Every wall of a room is at least as long as the smaller room dimension:
each wall spans a full room width or a full room length along one axis. -/
theorem min_dim_le_wall_length (room : Room) (w : Wall)
    (hw : w ∈ getWallSegments room) (h0w : 0 ≤ room.width) (h0l : 0 ≤ room.length) :
    min room.width room.length ≤ w.length := by
  rw [getWallSegments_explicit] at hw
  have hwd : Real.sqrt (room.width ^ 2) = room.width := Real.sqrt_sq h0w
  have hld : Real.sqrt (room.length ^ 2) = room.length := Real.sqrt_sq h0l
  have hminw : min room.width room.length ≤ Real.sqrt (room.width ^ 2) := by
    rw [hwd]; exact min_le_left _ _
  have hminl : min room.width room.length ≤ Real.sqrt (room.length ^ 2) := by
    rw [hld]; exact min_le_right _ _
  simp only [List.mem_cons, List.not_mem_nil, or_false] at hw
  rcases hw with rfl | rfl | rfl | rfl
  · refine le_trans hminw (Real.sqrt_le_sqrt ?_)
    nlinarith [sq_nonneg (Real.tan (degToRad room.southTiltDeg) * room.width - 0)]
  · refine le_trans hminl (Real.sqrt_le_sqrt ?_)
    nlinarith [sq_nonneg
      (room.width + Real.tan (degToRad room.eastTiltDeg) * room.length - room.width)]
  · refine le_trans hminw (Real.sqrt_le_sqrt ?_)
    nlinarith [sq_nonneg
      (room.length - (Real.tan (degToRad room.southTiltDeg) * room.width + room.length))]
  · refine le_trans hminl (Real.sqrt_le_sqrt ?_)
    nlinarith [sq_nonneg (0 - Real.tan (degToRad room.eastTiltDeg) * room.length)]

/-- C3: for rooms with tilt angles in `[-20°, 20°]` and width/length at least
1000mm, `getWallSegments` returns exactly four walls, the end point of wall
`i` equals the start point of wall `(i+1) mod 4`, and every wall has strictly
positive length. -/
theorem wallSegments_closed_polygon (room : Room)
    (hs1 : -20 ≤ room.southTiltDeg) (hs2 : room.southTiltDeg ≤ 20)
    (he1 : -20 ≤ room.eastTiltDeg) (he2 : room.eastTiltDeg ≤ 20)
    (hw : 1000 ≤ room.width) (hl : 1000 ≤ room.length) :
    (getWallSegments room).length = 4
    ∧ (∀ i : Fin 4,
        ((getWallSegments room).getD i.val ⟨0, ⟨0, 0⟩, ⟨0, 0⟩, 0, ⟨0, 0⟩, 0⟩).endP
          = ((getWallSegments room).getD ((i.val + 1) % 4)
              ⟨0, ⟨0, 0⟩, ⟨0, 0⟩, 0, ⟨0, 0⟩, 0⟩).start)
    ∧ ∀ w ∈ getWallSegments room, 0 < w.length := by
  refine ⟨?_, ?_, ?_⟩
  · rw [getWallSegments_explicit]
    rfl
  · intro i
    fin_cases i <;> rw [getWallSegments_explicit] <;> rfl
  · intro w hwseg
    have hlow := min_dim_le_wall_length room w hwseg (by linarith) (by linarith)
    have hm : (0 : ℝ) < min room.width room.length := lt_min (by linarith) (by linarith)
    linarith

/-- Witness for C3 at the 1000×1000 untilted room. -/
theorem wallSegments_closed_polygon_witness :
    (getWallSegments exRoom).length = 4 ∧ ∀ w ∈ getWallSegments exRoom, 0 < w.length := by
  have h := wallSegments_closed_polygon exRoom (by norm_num [exRoom]) (by norm_num [exRoom])
    (by norm_num [exRoom]) (by norm_num [exRoom]) (by norm_num [exRoom]) (by norm_num [exRoom])
  exact ⟨h.1, h.2.2⟩

/-- C4: for every wall of a spec-valid room (width/length ≥ 1000mm, so every
wall is at least 1000mm long, and height ≥ 2200mm) and arbitrary raw opening
input, the clamped bounds satisfy `start ≥ 50`, `end ≤ wall.length − 50`,
`top − sill ≥ 100` and `top ≤ room.height`. -/
theorem openingBounds_spec (room : Room) (wall : Wall) (opening : Opening)
    (hmem : wall ∈ getWallSegments room)
    (hw : 1000 ≤ room.width) (hl : 1000 ≤ room.length) (hh : 2200 ≤ room.height) :
    50 ≤ (getOpeningBounds opening wall room).start
    ∧ (getOpeningBounds opening wall room).endP ≤ wall.length - 50
    ∧ 100 ≤ (getOpeningBounds opening wall room).top - (getOpeningBounds opening wall room).sill
    ∧ (getOpeningBounds opening wall room).top ≤ room.height := by
  have hlen : (1000 : ℝ) ≤ wall.length := by
    have h1 := min_dim_le_wall_length room wall hmem (by linarith) (by linarith)
    have h2 : (1000 : ℝ) ≤ min room.width room.length := le_min hw hl
    linarith
  have h1 : (getOpeningBounds opening wall room).start =
      clamp (JSVal.num opening.offset) 50
        (max (wall.length - clamp (JSVal.num opening.width) 150 (max (wall.length - 100) 150) - 50) 50) := rfl
  have h2 : (getOpeningBounds opening wall room).endP =
      (getOpeningBounds opening wall room).start
        + clamp (JSVal.num opening.width) 150 (max (wall.length - 100) 150) := rfl
  have h3 : (getOpeningBounds opening wall room).sill =
      clamp (JSVal.num opening.sillHeight) 0 (room.height - 100) := rfl
  have h4 : (getOpeningBounds opening wall room).top =
      clamp (JSVal.num ((getOpeningBounds opening wall room).sill + opening.height))
        ((getOpeningBounds opening wall room).sill + 100) room.height := rfl
  obtain ⟨hWlo, hWhi⟩ :=
    clamp_mem (JSVal.num opening.width) 150 (max (wall.length - 100) 150) (le_max_right _ _)
  have hWub : clamp (JSVal.num opening.width) 150 (max (wall.length - 100) 150)
      ≤ wall.length - 100 := by
    have hmx : max (wall.length - 100) 150 = wall.length - 100 := max_eq_left (by linarith)
    exact hWhi.trans (le_of_eq hmx)
  obtain ⟨hSlo, hShi⟩ :=
    clamp_mem (JSVal.num opening.offset) 50
      (max (wall.length - clamp (JSVal.num opening.width) 150 (max (wall.length - 100) 150) - 50) 50)
      (le_max_right _ _)
  have hSub : clamp (JSVal.num opening.offset) 50
      (max (wall.length - clamp (JSVal.num opening.width) 150 (max (wall.length - 100) 150) - 50) 50)
      ≤ wall.length - clamp (JSVal.num opening.width) 150 (max (wall.length - 100) 150) - 50 := by
    have hmx : max (wall.length - clamp (JSVal.num opening.width) 150 (max (wall.length - 100) 150) - 50) 50
        = wall.length - clamp (JSVal.num opening.width) 150 (max (wall.length - 100) 150) - 50 :=
      max_eq_left (by linarith)
    exact hShi.trans (le_of_eq hmx)
  obtain ⟨hsillLo, hsillHi⟩ :=
    clamp_mem (JSVal.num opening.sillHeight) 0 (room.height - 100) (by linarith)
  obtain ⟨htopLo, htopHi⟩ :=
    clamp_mem (JSVal.num ((getOpeningBounds opening wall room).sill + opening.height))
      ((getOpeningBounds opening wall room).sill + 100) room.height
      (by rw [h3]; linarith)
  refine ⟨?_, ?_, ?_, ?_⟩
  · rw [h1]
    exact hSlo
  · rw [h2, h1]
    linarith
  · rw [h4]
    linarith
  · rw [h4]
    exact htopHi

/-- Witness for C4: the first wall of the 1000×1000 room with an opening whose
offset, width, height and sill are all out of range. -/
theorem openingBounds_spec_witness :
    50 ≤ (getOpeningBounds exOpening
        ((getWallSegments exRoom).getD 0 ⟨0, ⟨0, 0⟩, ⟨0, 0⟩, 0, ⟨0, 0⟩, 0⟩) exRoom).start
    ∧ (getOpeningBounds exOpening
        ((getWallSegments exRoom).getD 0 ⟨0, ⟨0, 0⟩, ⟨0, 0⟩, 0, ⟨0, 0⟩, 0⟩) exRoom).top
      ≤ exRoom.height := by
  have hmem : (getWallSegments exRoom).getD 0 ⟨0, ⟨0, 0⟩, ⟨0, 0⟩, 0, ⟨0, 0⟩, 0⟩
      ∈ getWallSegments exRoom := by
    rw [getWallSegments_explicit]
    exact List.mem_cons_self _ _
  have h := openingBounds_spec exRoom _ exOpening hmem (by norm_num [exRoom])
    (by norm_num [exRoom]) (by norm_num [exRoom])
  exact ⟨h.1, h.2.2.2⟩

/-- C5: whenever the computed scale is nonzero, `project` and `unproject`
returned by `getPlanProjection` are exact inverses (in exact real
arithmetic). -/
theorem planProjection_roundtrip (room : Room) (cw ch ratio : ℝ)
    (h : (getPlanProjection room cw ch ratio).scale ≠ 0) :
    (∀ p, (getPlanProjection room cw ch ratio).unproject
        ((getPlanProjection room cw ch ratio).project p) = p)
    ∧ (∀ q, (getPlanProjection room cw ch ratio).project
        ((getPlanProjection room cw ch ratio).unproject q) = q) := by
  have hproj : (getPlanProjection room cw ch ratio).project = fun point =>
      ⟨(getPlanProjection room cw ch ratio).padding
          + (point.x - (getPlanProjection room cw ch ratio).minX)
            * (getPlanProjection room cw ch ratio).scale,
        (getPlanProjection room cw ch ratio).renderHeight
          - (getPlanProjection room cw ch ratio).padding
          - (point.y - (getPlanProjection room cw ch ratio).minY)
            * (getPlanProjection room cw ch ratio).scale⟩ := rfl
  have hunproj : (getPlanProjection room cw ch ratio).unproject = fun point =>
      ⟨(getPlanProjection room cw ch ratio).minX
          + (point.x - (getPlanProjection room cw ch ratio).padding)
            / (getPlanProjection room cw ch ratio).scale,
        (getPlanProjection room cw ch ratio).minY
          + ((getPlanProjection room cw ch ratio).renderHeight
              - (getPlanProjection room cw ch ratio).padding - point.y)
            / (getPlanProjection room cw ch ratio).scale⟩ := rfl
  constructor
  · intro p
    obtain ⟨px, py⟩ := p
    rw [hproj, hunproj]
    simp only [Point2.mk.injEq]
    constructor <;> field_simp
  · intro q
    obtain ⟨qx, qy⟩ := q
    rw [hproj, hunproj]
    simp only [Point2.mk.injEq]
    constructor <;> field_simp <;> ring

/-- Witness for C5: for the 1000×1000 room on an 800×600 canvas with device
pixel ratio 1 the scale is 0.48 ≠ 0, and the round trip is exact at
`(300, 400)`. -/
theorem planProjection_roundtrip_witness :
    (getPlanProjection exRoom 800 600 1).scale ≠ 0
    ∧ (getPlanProjection exRoom 800 600 1).unproject
        ((getPlanProjection exRoom 800 600 1).project ⟨300, 400⟩) = ⟨300, 400⟩ := by
  have hscale : (getPlanProjection exRoom 800 600 1).scale = 0.48 := by
    simp only [getPlanProjection, getWallSegments_explicit]
    norm_num [exRoom, Real.tan_zero, degToRad, jsMinList, jsMaxList, min_def, max_def]
  have hne : (getPlanProjection exRoom 800 600 1).scale ≠ 0 := by
    rw [hscale]
    norm_num
  exact ⟨hne, (planProjection_roundtrip exRoom 800 600 1 hne).1 ⟨300, 400⟩⟩

/-- C9 counterexample: for a 250mm-wide cabinet the 180mm minimum width floor
of `getMountedEquipmentDisplay` exceeds the cabinet interior
`width − 120 = 130mm`, so the claimed bound fails for that cabinet size. -/
theorem mountedDisplay_counterexample :
    (getMountedEquipmentDisplay (mountedSwitch 1 1) tinyCabinetList).width = 180
    ∧ ¬((getMountedEquipmentDisplay (mountedSwitch 1 1) tinyCabinetList).width
        ≤ (250 : ℚ) - 120) := by
  have h : (getMountedEquipmentDisplay (mountedSwitch 1 1) tinyCabinetList).width = 180 := by
    simp [getMountedEquipmentDisplay, mountedSwitch, tinyCabinetList, baseEquip, jsIndex,
      min_def, max_def]
    norm_num
  refine ⟨h, ?_⟩
  rw [h]
  norm_num

/-- C9 (amended): an item rack-mounted by `addEquipment` gets height
`rackUnits × 44.45`; and the mounted footprint clamps stay within the cabinet
interior (`width − 120`, `depth − 180`) provided the cabinet is at least
320mm wide and 360mm deep (the 180–200mm minimum-size floors of the clamps
otherwise exceed a smaller cabinet's interior, see the counterexample); this
holds both for the stored footprint set by `addEquipment` and for the
effective display footprint of `getMountedEquipmentDisplay`. -/
theorem rackMount_footprint_spec :
    (∀ draft E m c, addEquipmentItem draft E = some m → m.mountedIn = some c →
        m.height = (m.rackUnits : ℚ) * RU_HEIGHT)
    ∧ (∀ item E m cab, item.mountedIn = some m → jsIndex E m = some cab →
        cab.type = EquipKind.cabinet → 320 ≤ cab.width → 360 ≤ cab.depth →
        (getMountedEquipmentDisplay item E).width ≤ cab.width - 120
        ∧ (getMountedEquipmentDisplay item E).depth ≤ cab.depth - 180)
    ∧ (∀ draft E m c cab, addEquipmentItem draft E = some m → m.mountedIn = some c →
        jsIndex E c = some cab → 320 ≤ cab.width → 360 ≤ cab.depth →
        m.width ≤ cab.width - 120 ∧ m.depth ≤ cab.depth - 180) := by
  have hbranch : ∀ draft E m, addEquipmentItem draft E = some m →
      (∀ c, m.mountedIn = some c →
        ∃ cabinet, jsIndex E c = some cabinet ∧
          m.height = (m.rackUnits : ℚ) * RU_HEIGHT ∧
          m.width = max (min (cabinet.width - 120) 482) 200 ∧
          m.depth = max (min (cabinet.depth - 180) (EQUIPMENT_PRESETS draft.type).depth) 180) := by
    intro draft E m hadd c hc
    by_cases h1 : draft.type = EquipKind.cabinet
    · simp only [addEquipmentItem, if_pos h1, Option.some.injEq] at hadd
      rw [← hadd] at hc
      simp at hc
    · by_cases h2 : (EQUIPMENT_PRESETS draft.type).mountable = true
          ∧ draft.installMode = "rack" ∧ draft.mountTarget ≠ none
      · obtain ⟨hmt, hmode, hne⟩ := h2
        obtain ⟨ci, hci⟩ := Option.ne_none_iff_exists'.mp hne
        simp only [addEquipmentItem, if_neg h1, hci] at hadd
        rw [if_pos ⟨hmt, hmode, by simp [hci]⟩] at hadd
        rcases hcab : jsIndex E ci with _ | cabinet
        · rw [hcab] at hadd
          cases hadd
        · rw [hcab] at hadd
          dsimp only at hadd
          by_cases h3 : cabinet.type = EquipKind.cabinet
          · rw [if_pos h3] at hadd
            by_cases h4 : getNextRackStart E ci
                  (intOr (EQUIPMENT_PRESETS draft.type).rackUnits
                    (max 1 (round ((EQUIPMENT_PRESETS draft.type).height / RU_HEIGHT))))
                + (intOr (EQUIPMENT_PRESETS draft.type).rackUnits
                    (max 1 (round ((EQUIPMENT_PRESETS draft.type).height / RU_HEIGHT)))) - 1
                > intOr cabinet.rackUnits (max 1 (round (cabinet.height / RU_HEIGHT)))
            · rw [if_pos h4] at hadd
              cases hadd
            · rw [if_neg h4] at hadd
              simp only [Option.some.injEq] at hadd
              rw [← hadd] at hc ⊢
              simp only [Option.some.injEq] at hc
              rw [← hc]
              exact ⟨cabinet, hcab, by push_cast; ring, rfl, rfl⟩
          · rw [if_neg h3] at hadd
            cases hadd
      · simp only [addEquipmentItem, if_neg h1, if_neg h2, Option.some.injEq] at hadd
        rw [← hadd] at hc
        simp at hc
  refine ⟨?_, ?_, ?_⟩
  · intro draft E m c hadd hc
    obtain ⟨cabinet, _, hh, _, _⟩ := hbranch draft E m hadd c hc
    exact hh
  · intro item E m cab hm hcab htype hw hd
    have hdisp : getMountedEquipmentDisplay item E =
        { item with
          x := cab.x
          y := cab.y
          width := max (min item.width (cab.width - 120)) 180
          depth := max (min item.depth (cab.depth - 180)) 160
          rotationDeg := cab.rotationDeg } := by
      simp [getMountedEquipmentDisplay, hm, hcab, htype]
    rw [hdisp]
    constructor
    · exact max_le (min_le_right _ _) (by linarith)
    · exact max_le (min_le_right _ _) (by linarith)
  · intro draft E m c cab hadd hc hcab hw hd
    obtain ⟨cabinet, hcab', _, hwid, hdep⟩ := hbranch draft E m hadd c hc
    rw [hcab'] at hcab
    injection hcab with hcabeq
    subst hcabeq
    constructor
    · rw [hwid]
      exact max_le (min_le_left _ _) (by linarith)
    · rw [hdep]
      exact max_le (min_le_left _ _) (by linarith)

/-- Witness for C9 at the display clamp: a 450mm switch mounted in the default
600×1000 cabinet stays within the interior bounds. -/
theorem rackMount_footprint_spec_witness :
    (getMountedEquipmentDisplay (mountedSwitch 1 1) [baseEquip]).width
        ≤ baseEquip.width - 120
    ∧ (getMountedEquipmentDisplay (mountedSwitch 1 1) [baseEquip]).depth
        ≤ baseEquip.depth - 180 :=
  (rackMount_footprint_spec.2.1 (mountedSwitch 1 1) [baseEquip] 0 baseEquip rfl rfl rfl
    (by norm_num [baseEquip]) (by norm_num [baseEquip]))

/-- Correctness of the cursor sweep of `getNextRackStart`: on a list of
nonempty intervals, sorted and gap-separated (`p.end < q.start` pairwise in
order), the sweep starting at `cursor` returns the least position `s ≥
cursor` whose block `[s, s + ru − 1]` is disjoint from every interval. -/
theorem rackSweep_spec (ru : ℤ) (hru : 1 ≤ ru) :
    ∀ (L : List (ℤ × ℤ)) (cursor : ℤ),
      (∀ p ∈ L, p.1 ≤ p.2) → L.Pairwise (fun p q => p.2 < q.1) →
      cursor ≤ rackSweep ru cursor L
      ∧ (∀ p ∈ L, rackSweep ru cursor L + ru - 1 < p.1 ∨ p.2 < rackSweep ru cursor L)
      ∧ (∀ s, cursor ≤ s → (∀ p ∈ L, s + ru - 1 < p.1 ∨ p.2 < s) →
          rackSweep ru cursor L ≤ s) := by
  intro L
  induction L with
  | nil =>
    intro cursor _ _
    refine ⟨le_refl _, by simp, ?_⟩
    intro s hs _
    simpa [rackSweep] using hs
  | cons slot rest ih =>
    intro cursor hne hsep
    have hslot : slot.1 ≤ slot.2 := hne slot (List.mem_cons_self _ _)
    have hheads : ∀ p ∈ rest, slot.2 < p.1 := fun p hp => List.rel_of_pairwise_cons hsep hp
    by_cases hcase : cursor + ru - 1 < slot.1
    · have hr : rackSweep ru cursor (slot :: rest) = cursor := by
        simp [rackSweep, hcase]
      rw [hr]
      refine ⟨le_refl _, ?_, ?_⟩
      · intro p hp
        rcases List.mem_cons.mp hp with rfl | hp
        · exact Or.inl hcase
        · have := hheads p hp
          exact Or.inl (by omega)
      · intro s hs _
        exact hs
    · have hr : rackSweep ru cursor (slot :: rest) =
          rackSweep ru (max cursor (slot.2 + 1)) rest := by
        simp [rackSweep, hcase]
      rw [hr]
      obtain ⟨iha, ihb, ihc⟩ := ih (max cursor (slot.2 + 1))
        (fun p hp => hne p (List.mem_cons_of_mem _ hp)) hsep.of_cons
      refine ⟨?_, ?_, ?_⟩
      · exact le_trans (le_max_left _ _) iha
      · intro p hp
        rcases List.mem_cons.mp hp with rfl | hp
        · have h1 : p.2 + 1 ≤ max cursor (p.2 + 1) := le_max_right _ _
          exact Or.inr (by omega)
        · exact ihb p hp
      · intro s hs hd
        refine ihc s ?_ (fun p hp => hd p (List.mem_cons_of_mem _ hp))
        rcases hd slot (List.mem_cons_self _ _) with h | h
        · omega
        · exact max_le hs (by omega)

/-- C1: under the data-model invariant that the items mounted in the target
cabinet occupy pairwise disjoint 1-based slot intervals, and for a requested
span of at least one rack unit, `getNextRackStart` returns the smallest slot
`s ≥ 1` whose span `[s, s + rackUnits − 1]` is disjoint from every occupied
interval.  The function never signals a failure: the capacity comparison
against the cabinet's `rackUnits` is performed by its caller
(`addEquipment`). -/
theorem getNextRackStart_spec (E : List Equip) (c ru : ℤ)
    (hru : 1 ≤ ru)
    (hne : ∀ p ∈ occupiedIntervals E c, 1 ≤ p.1 ∧ p.1 ≤ p.2)
    (hdisj : (occupiedIntervals E c).Pairwise (fun p q => p.2 < q.1 ∨ q.2 < p.1)) :
    1 ≤ getNextRackStart E c ru
    ∧ (∀ p ∈ occupiedIntervals E c,
        getNextRackStart E c ru + ru - 1 < p.1 ∨ p.2 < getNextRackStart E c ru)
    ∧ (∀ s : ℤ, 1 ≤ s →
        (∀ p ∈ occupiedIntervals E c, s + ru - 1 < p.1 ∨ p.2 < s) →
        getNextRackStart E c ru ≤ s) := by
  have hperm := List.perm_insertionSort startLE (occupiedIntervals E c)
  have hsorted := List.sorted_insertionSort startLE (occupiedIntervals E c)
  have hdisjL : (List.insertionSort startLE (occupiedIntervals E c)).Pairwise
      (fun p q => p.2 < q.1 ∨ q.2 < p.1) :=
    (hperm.pairwise_iff (fun h => h.symm)).mpr hdisj
  have hneL : ∀ p ∈ List.insertionSort startLE (occupiedIntervals E c),
      1 ≤ p.1 ∧ p.1 ≤ p.2 :=
    fun p hp => hne p (hperm.mem_iff.mp hp)
  have hsep : (List.insertionSort startLE (occupiedIntervals E c)).Pairwise
      (fun p q => p.2 < q.1) := by
    refine (List.Pairwise.and hsorted hdisjL).imp_of_mem ?_
    intro a b ha hb hab
    obtain ⟨hle, hd⟩ := hab
    have hb2 := (hneL b hb).2
    unfold startLE at hle
    rcases hd with hd | hd
    · exact hd
    · omega
  obtain ⟨ha, hb, hc⟩ := rackSweep_spec ru hru
    (List.insertionSort startLE (occupiedIntervals E c)) 1
    (fun p hp => (hneL p hp).2) hsep
  unfold getNextRackStart
  refine ⟨ha, ?_, ?_⟩
  · intro p hp
    exact hb p (hperm.mem_iff.mpr hp)
  · intro s hs hd
    exact hc s hs (fun p hp => hd p (hperm.mem_iff.mp hp))

/-- Witness for C1: the occupied intervals of the example cabinet are
`[1,4]` and `[8,10]`; an empty cabinet allocates slot 1; requesting 3 units
with `[1,4]`, `[8,10]` occupied allocates slot 5; requesting 1 unit with
`[1,4]`, `[5,7]`, `[8,10]` occupied allocates slot 11; and slot 5 is the
least admissible slot for the 3-unit request. -/
theorem getNextRackStart_spec_witness :
    occupiedIntervals rackListTwo 0 = [(1, 4), (8, 10)]
    ∧ getNextRackStart rackListEmpty 0 5 = 1
    ∧ getNextRackStart rackListTwo 0 3 = 5
    ∧ getNextRackStart rackListThree 0 1 = 11
    ∧ (1 ≤ getNextRackStart rackListTwo 0 3
       ∧ (∀ p ∈ occupiedIntervals rackListTwo 0,
            getNextRackStart rackListTwo 0 3 + 3 - 1 < p.1
              ∨ p.2 < getNextRackStart rackListTwo 0 3)
       ∧ (∀ s : ℤ, 1 ≤ s →
            (∀ p ∈ occupiedIntervals rackListTwo 0, s + 3 - 1 < p.1 ∨ p.2 < s) →
            getNextRackStart rackListTwo 0 3 ≤ s)) :=
  ⟨by decide, by decide, by decide, by decide,
   getNextRackStart_spec rackListTwo 0 3 (by decide) (by decide) (by decide)⟩

/-- Position of a surviving element after an index-based filter: filtering an
enumerated list by an index predicate and mapping the elements sends the
element at position `k` (when kept) to position "number of kept indexes below
`k`". -/
theorem enumFrom_filter_map_get {α β : Type} (g : α → β) (keep : ℕ → Bool) :
    ∀ (l : List α) (n k : ℕ) (hk : k < l.length), keep (n + k) = true →
      (((l.enumFrom n).filter (fun p => keep p.1)).map (fun p => g p.2)).get?
          ((List.range k).countP (fun j => keep (n + j)))
        = some (g (l.get ⟨k, hk⟩)) := by
  intro l
  induction l with
  | nil =>
    intro n k hk
    exact absurd hk (Nat.not_lt_zero k)
  | cons a t ih =>
    intro n k hk hkeep
    have hcount : ∀ kk : ℕ, (List.range (kk + 1)).countP (fun j => keep (n + j))
        = (List.range kk).countP (fun j => keep (n + 1 + j)) + (if keep n then 1 else 0) := by
      intro kk
      rw [List.range_succ_eq_map, List.countP_cons, List.countP_map]
      have hfun : ((fun j => keep (n + j)) ∘ Nat.succ) = (fun j => keep (n + 1 + j)) := by
        funext j
        have : n + Nat.succ j = n + 1 + j := by omega
        simp [Function.comp, this]
      rw [hfun]
      congr 1
    cases k with
    | zero =>
      have hn : keep n = true := by simpa using hkeep
      rw [List.enumFrom_cons, List.filter_cons]
      simp [hn]
    | succ k =>
      have hk' : k < t.length := by simpa using hk
      have hkeep' : keep (n + 1 + k) = true := by
        have : n + 1 + k = n + (k + 1) := by omega
        rw [this]
        exact hkeep
      rw [List.enumFrom_cons, List.filter_cons, hcount k]
      by_cases hn : keep n = true
      · rw [if_pos (by simpa using hn), if_pos hn, List.map_cons]
        rw [List.get?_cons_succ]
        rw [ih (n + 1) k hk' hkeep']
        congr 1
      · rw [if_neg (by simpa using hn), if_neg hn]
        simpa using ih (n + 1) k hk' hkeep'

/-- Complement count: the kept indexes and removed indexes of a list of
candidate positions partition it. -/
theorem countP_keep_eq_sub (index : ℕ) (E : List Equip) :
    ∀ l : List ℕ, l.countP (fun j => !removedIdx index E j)
      = l.length - l.countP (removedIdx index E) := by
  intro l
  induction l with
  | nil => simp
  | cons a t iht =>
    have hle := List.countP_le_length (removedIdx index E) (l := t)
    by_cases ha : removedIdx index E a = true <;>
      simp [List.countP_cons, ha, iht] <;> omega

/-- C6 (amended): deleting the equipment item at `index` removes it together
with, when it is a cabinet, all items mounted in it; every surviving entity
reappears (with its `mountedIn` reference fixed up) at its old index minus
the number of removed indexes below it; a `mountedIn` reference to a removed
index is nulled together with `rackStart`; a connection is dropped exactly
when one of its equipment endpoints is removed, and each surviving equipment
endpoint is shifted down by the number of removed indexes below it — so every
surviving reference denotes the same entity as before.  When the removed item
is not a cabinet with mounted items, the shift is exactly one for references
above `index` and zero below, as the claim states for its example. -/
theorem removeEquipment_refs (index : ℕ) (E : List Equip) (C : List ConnInput)
    (hidx : index < E.length) :
    (∀ m : ℤ, 0 ≤ m → m.toNat < E.length → removedIdxZ index E m = false →
      jsIndex (removeEquipmentE index E) (m - removedBeforeZ index E m)
        = (jsIndex E m).map (fixupMount index E))
    ∧ (∀ item : Equip, ∀ m : ℤ, item.mountedIn = some m →
        (removedIdxZ index E m = true →
          (fixupMount index E item).mountedIn = none
          ∧ (fixupMount index E item).rackStart = none)
        ∧ (removedIdxZ index E m = false →
          (fixupMount index E item).mountedIn = some (m - removedBeforeZ index E m)))
    ∧ (∀ c' : Conn, c' ∈ removeEquipmentC index E C ↔
        ∃ c, c ∈ C.map normalizeConnection ∧ connSurvives index E c = true
          ∧ c' = connShift index E c)
    ∧ ((∀ j, removedIdx index E j = true → j = index) →
        ∀ m : ℤ, removedBeforeZ index E m = if (index : ℤ) < m then 1 else 0) := by
  refine ⟨?_, ?_, ?_, ?_⟩
  · intro m hm0 hmlt hnr
    have hknr : removedIdx index E m.toNat = false := by
      simpa [removedIdxZ, hm0] using hnr
    have hkeep : (!removedIdx index E (0 + m.toNat)) = true := by
      rw [Nat.zero_add, hknr]
      rfl
    have hpos := enumFrom_filter_map_get (fixupMount index E)
      (fun j => !removedIdx index E j) E 0 m.toNat hmlt hkeep
    have hcnt_le : removedBeforeZ index E m ≤ m.toNat := by
      have h1 := List.countP_le_length (removedIdx index E) (l := List.range m.toNat)
      simpa [removedBeforeZ] using h1
    have hnneg : ¬(m - (removedBeforeZ index E m : ℤ) < 0) := by omega
    have htonat : (m - (removedBeforeZ index E m : ℤ)).toNat
        = m.toNat - removedBeforeZ index E m := by omega
    have hidx2 : (List.range m.toNat).countP (fun j => !removedIdx index E j)
        = m.toNat - removedBeforeZ index E m := by
      rw [countP_keep_eq_sub, List.length_range]
      rfl
    have hjm : jsIndex E m = some (E.get ⟨m.toNat, hmlt⟩) := by
      rw [jsIndex, if_neg (by omega)]
      exact List.get?_eq_get hmlt
    simp only [Nat.zero_add] at hpos
    rw [jsIndex, if_neg hnneg, htonat, hjm]
    rw [← hidx2]
    exact hpos
  · intro item m hm
    constructor
    · intro hrem
      simp [fixupMount, hm, hrem]
    · intro hnr
      by_cases hc : 0 < removedBeforeZ index E m
      · simp [fixupMount, hm, hnr, hc]
      · have h0 : removedBeforeZ index E m = 0 := by omega
        simp [fixupMount, hm, hnr, hc, h0]
  · intro c'
    simp only [removeEquipmentC, List.mem_map, List.mem_filter]
    constructor
    · rintro ⟨c, ⟨hc, hs⟩, rfl⟩
      exact ⟨c, hc, hs, rfl⟩
    · rintro ⟨c, hc, hs, rfl⟩
      exact ⟨c, ⟨hc, hs⟩, rfl⟩
  · intro huniq m
    have hself : removedIdx index E index = true := by
      simp [removedIdx]
    have hiff : ∀ j, removedIdx index E j = true ↔ j = index := by
      intro j
      exact ⟨huniq j, fun hj => hj ▸ hself⟩
    have hcount : ∀ t : ℕ, (List.range t).countP (removedIdx index E)
        = if index < t then 1 else 0 := by
      intro t
      induction t with
      | zero => simp
      | succ t iht =>
        rw [List.range_succ, List.countP_append, iht]
        have : (List.countP (removedIdx index E) [t])
            = if t = index then 1 else 0 := by
          by_cases ht : t = index
          · simp [List.countP_cons, ht, hself]
          · have : removedIdx index E t = false :=
              Bool.eq_false_iff.mpr (fun hcon => ht ((hiff t).mp hcon))
            simp [List.countP_cons, this, ht]
        rw [this]
        split_ifs <;> omega
    rw [removedBeforeZ, hcount m.toNat]
    split_ifs <;> omega

/-- C6 counterexample: deleting cabinet index 0 cascades to its mounted item
at index 1; a surviving connection endpoint at index 2 is renumbered to 0,
not to `2 − 1 = 1` as the claim predicts. -/
theorem removeEquipment_counterexample :
    (removeEquipmentC 0 cascadeEquip cascadeConns).map Conn.fromIndex = [0]
    ∧ (removeEquipmentC 0 cascadeEquip cascadeConns).map Conn.fromIndex ≠ [2 - 1] := by
  exact ⟨by decide, by decide⟩

/-- Witness for C6 at the cascade example: the surviving entity at old index
2 reappears at index `2 − removedBefore(2) = 0` denoting the same (fixed-up)
item. -/
theorem removeEquipment_refs_witness :
    jsIndex (removeEquipmentE 0 cascadeEquip) (2 - removedBeforeZ 0 cascadeEquip 2)
      = (jsIndex cascadeEquip 2).map (fixupMount 0 cascadeEquip) :=
  (removeEquipment_refs 0 cascadeEquip cascadeConns (by decide)).1 2 (by decide)
    (by decide) (by decide)
